import Mathlib

/-
Verification of the bchip8 interpreter core (src/opcode.rs, src/machine.rs).

The Rust code is shallowly embedded: machine words are `Nat` with explicit
`% 2^w` where the code wraps; fallible methods (`anyhow::Result<T>` on
`&mut self`) become state-threading functions `Machine → Except Fault α ×
Machine`, so that mutations performed before an early `?`-return are kept,
exactly as with `&mut self` in Rust.  A Rust panic (out-of-bounds array
index, `unwrap` failure) is modelled by the distinguished fault `crash`,
distinct from the explicit `anyhow::bail!` error results.
-/

namespace BChip8

/-! ### Constants (machine.rs lines 14-29) -/

def MEMORY_SIZE : Nat := 0x1000
def REGISTER_COUNT : Nat := 0x10
def DISPLAY_WIDTH : Nat := 64
def DISPLAY_HEIGHT : Nat := 32

/-- `SPRITE_MASK: [u8; 8]` — bit masks `1 << 7 .. 1 << 0`. -/
def SPRITE_MASK : Nat → Nat
  | 0 => 1 <<< 7
  | 1 => 1 <<< 6
  | 2 => 1 <<< 5
  | 3 => 1 <<< 4
  | 4 => 1 <<< 3
  | 5 => 1 <<< 2
  | 6 => 1 <<< 1
  | 7 => 1 <<< 0
  | _ => 0

/-! ### Faults

`bail msg` models `anyhow::bail!(msg)`; `crash` models a Rust runtime
panic (index out of bounds / failed unwrap), which is not an explicit
`Result` error. -/

inductive Fault where
  | bail (msg : String)
  | crash
deriving DecidableEq

/-! ### Input state machine (machine.rs lines 31-36) -/

inductive GetKeyState where
  | None
  | Paused
  | Pressed (k : Nat)
  | Released (k : Nat)
deriving DecidableEq

/-! ### Key events (console.rs lines 21-31); the console collaborator is
external, events are injected as values. -/

inductive Key where
  | Quit
  | Num (n : Nat)
deriving DecidableEq

inductive KeyEvent where
  | Pressed (k : Key)
  | Released (k : Key)
deriving DecidableEq

/-! ### Machine state (machine.rs lines 38-59)

Real-time fields (`cycle`, `tick_cnt`, `tick_at`) and the console handle
are external/time concerns and are not part of the state the verified
operations touch.  `rng` is modelled as a stream plus a cursor.
Fixed-size arrays (`memory`, `register_pool`, `key_state`,
`display_buffer`) are modelled as functions; every access the Rust code
performs through a checked accessor keeps its bound check, and every raw
indexing keeps the Rust runtime bounds check (as `crash`). -/

structure Machine where
  running : Bool
  display_buffer : Nat → Nat → Bool
  cartridge_address : Nat
  font_address : Nat
  display_buffer_dirty : Bool
  key_state : Nat → Bool
  get_key_state : GetKeyState
  rng_stream : Nat → Nat
  rng_cnt : Nat
  register_i : Nat
  register_pool : Nat → Nat
  delay_timer : Nat
  sound_timer : Nat
  memory : Nat → Nat
  stack : List Nat
  pc : Nat

/-- `Machine::new` zero state (machine.rs lines 63-86). -/
def init_machine : Machine where
  running := false
  display_buffer := fun _ _ => false
  cartridge_address := 0
  font_address := 0
  display_buffer_dirty := false
  key_state := fun _ => false
  get_key_state := .None
  rng_stream := fun _ => 0
  rng_cnt := 0
  register_i := 0
  register_pool := fun _ => 0
  delay_timer := 0
  sound_timer := 0
  memory := fun _ => 0
  stack := []
  pc := 0

/-! ### The effect shape: `&mut self` methods returning `anyhow::Result`.

`ES α = Machine → Except Fault α × Machine`: the final machine is
returned in both the success and the failure case, because a Rust method
that mutated `self` and then hit `?` leaves the earlier mutations in
place. -/

def ES (α : Type) : Type := Machine → Except Fault α × Machine

/-- Sequencing of two fallible mutating steps (`a?; f`). -/
def ebind {α β : Type} (a : ES α) (f : α → ES β) : ES β := fun m =>
  match a m with
  | (.ok v, m1) => f v m1
  | (.error e, m1) => (.error e, m1)

/-- Sequencing of a read-only fallible call (`&self` method) with a
continuation; a read does not change the machine. -/
def ebindR {α β : Type} (r : Machine → Except Fault α) (f : α → ES β) : ES β := fun m =>
  match r m with
  | .ok v => f v m
  | .error e => (.error e, m)

/-- An infallible in-place mutation. -/
def emodify (f : Machine → Machine) : ES Unit := fun m => (.ok (), f m)

/-! ### Operations (opcode.rs lines 3-151) -/

inductive Operation where
  | CallSysC (addr : Nat)
  | Clear
  | Return
  | JumpC (addr : Nat)
  | CallC (addr : Nat)
  | SkipEqC (x c : Nat)
  | SkipNeC (x c : Nat)
  | SkipEq (x y : Nat)
  | SetC (x c : Nat)
  | AddC (x c : Nat)
  | Set (x y : Nat)
  | Or (x y : Nat)
  | And (x y : Nat)
  | Xor (x y : Nat)
  | Add (x y : Nat)
  | Sub (x y : Nat)
  | Shr (x y : Nat)
  | SubRev (x y : Nat)
  | Shl (x y : Nat)
  | SkipNe (x y : Nat)
  | SetIC (c : Nat)
  | JumpV0C (c : Nat)
  | RandC (x c : Nat)
  | DrawC (x y c : Nat)
  | SkipEqKey (x : Nat)
  | SkipNeKey (x : Nat)
  | GetDelayTimer (x : Nat)
  | GetKey (x : Nat)
  | SetDelayTimer (x : Nat)
  | SetSoundTimer (x : Nat)
  | AddI (x : Nat)
  | SetIFont (x : Nat)
  | Bcd (x : Nat)
  | Store (x : Nat)
  | Restore (x : Nat)
  | Unknown (c : Nat)
deriving DecidableEq

/-! ### Decoder helpers (opcode.rs lines 259-277) -/

def oph1 (opcode : Nat) : Nat := opcode &&& 0xFF

def op0 (opcode : Nat) : Nat := (opcode &&& 0xF000) >>> 12

def op1 (opcode : Nat) : Nat := (opcode &&& 0x0F00) >>> 8

def op2 (opcode : Nat) : Nat := (opcode &&& 0x00F0) >>> 4

def op3 (opcode : Nat) : Nat := opcode &&& 0x000F

/-- `parse_opcode` (opcode.rs lines 197-256). -/
def parse_opcode (opcode : Nat) : Operation :=
  match op0 opcode with
  | 0x0 =>
    match oph1 opcode with
    | 0xEE => .Return
    | 0xE0 => .Clear
    | _ => .CallSysC (opcode &&& 0xFFF)
  | 0x1 => .JumpC (opcode &&& 0xFFF)
  | 0x2 => .CallC (opcode &&& 0xFFF)
  | 0x3 => .SkipEqC (op1 opcode) (oph1 opcode)
  | 0x4 => .SkipNeC (op1 opcode) (oph1 opcode)
  | 0x5 => .SkipEq (op1 opcode) (op2 opcode)
  | 0x6 => .SetC (op1 opcode) (oph1 opcode)
  | 0x7 => .AddC (op1 opcode) (oph1 opcode)
  | 0x8 =>
    match op3 opcode with
    | 0 => .Set (op1 opcode) (op2 opcode)
    | 1 => .Or (op1 opcode) (op2 opcode)
    | 2 => .And (op1 opcode) (op2 opcode)
    | 3 => .Xor (op1 opcode) (op2 opcode)
    | 4 => .Add (op1 opcode) (op2 opcode)
    | 5 => .Sub (op1 opcode) (op2 opcode)
    | 6 => .Shr (op1 opcode) (op2 opcode)
    | 7 => .SubRev (op1 opcode) (op2 opcode)
    | 0xE => .Shl (op1 opcode) (op2 opcode)
    | _ => .Unknown opcode
  | 0x9 =>
    if op3 opcode = 0 then .SkipNe (op1 opcode) (op2 opcode)
    else .Unknown opcode
  | 0xA => .SetIC (opcode &&& 0xFFF)
  | 0xB => .JumpV0C (opcode &&& 0xFFF)
  | 0xC => .RandC (op1 opcode) (oph1 opcode)
  | 0xD => .DrawC (op1 opcode) (op2 opcode) (op3 opcode)
  | 0xE =>
    match oph1 opcode with
    | 0x9E => .SkipEqKey (op1 opcode)
    | 0xA1 => .SkipNeKey (op1 opcode)
    | _ => .Unknown opcode
  | 0xF =>
    match oph1 opcode with
    | 0x07 => .GetDelayTimer (op1 opcode)
    | 0x0A => .GetKey (op1 opcode)
    | 0x15 => .SetDelayTimer (op1 opcode)
    | 0x18 => .SetSoundTimer (op1 opcode)
    | 0x1E => .AddI (op1 opcode)
    | 0x29 => .SetIFont (op1 opcode)
    | 0x33 => .Bcd (op1 opcode)
    | 0x55 => .Store (op1 opcode)
    | 0x65 => .Restore (op1 opcode)
    | _ => .Unknown opcode
  | _ => .Unknown opcode

/-! ### Checked state accessors (machine.rs lines 304-393) -/

/-- `Machine::load` (machine.rs lines 162-169): bounds check, then
`copy_from_slice` into `memory[address..address + data.len()]`. -/
def load (address : Nat) (data : List Nat) : ES Unit := fun m =>
  if address + data.length ≥ MEMORY_SIZE then (.error (.bail "memory overflow"), m)
  else (.ok (), { m with memory := fun a =>
    if address ≤ a ∧ a < address + data.length then data.getD (a - address) 0 else m.memory a })

/-- `Machine::clear_display` (machine.rs lines 183-189): sets every pixel
of the 64×32 grid to false; does not touch `display_buffer_dirty`. -/
def clear_display (m : Machine) : Machine :=
  { m with display_buffer := fun y x =>
    if y < DISPLAY_HEIGHT ∧ x < DISPLAY_WIDTH then false else m.display_buffer y x }

/-- `Machine::advance_pc` (machine.rs lines 304-311). -/
def advance_pc (op_distance : Nat) : ES Unit := fun m =>
  if m.pc + op_distance * 2 ≥ MEMORY_SIZE then (.error (.bail "pc overflow"), m)
  else (.ok (), { m with pc := m.pc + op_distance * 2 })

/-- `Machine::advance` (machine.rs lines 313-316). -/
def advance : ES Unit := advance_pc 1

/-- `Machine::set_pc` (machine.rs lines 318-324). -/
def set_pc (pc : Nat) : ES Unit := fun m =>
  if pc ≥ MEMORY_SIZE then (.error (.bail "pc overflow"), m)
  else (.ok (), { m with pc := pc })

/-- `Machine::set_register` (machine.rs lines 326-333). -/
def set_register (reg_id val : Nat) : ES Unit := fun m =>
  if reg_id ≥ REGISTER_COUNT then (.error (.bail "invalid general register id"), m)
  else (.ok (), { m with register_pool := fun j => if j = reg_id then val else m.register_pool j })

/-- `Machine::set_vf` as a pure update: `set_register(0xF, 1).unwrap()`
never fails since `0xF < REGISTER_COUNT` (machine.rs lines 335-337). -/
def vf_set (m : Machine) : Machine :=
  { m with register_pool := fun j => if j = 0xF then 1 else m.register_pool j }

/-- `Machine::clr_vf`: `set_register(0xF, 0).unwrap()` (machine.rs
lines 339-341). -/
def vf_clr (m : Machine) : Machine :=
  { m with register_pool := fun j => if j = 0xF then 0 else m.register_pool j }

def set_vf : ES Unit := emodify vf_set

def clr_vf : ES Unit := emodify vf_clr

/-- `Machine::get_register` (machine.rs lines 343-349), a `&self` read. -/
def get_register (reg_id : Nat) (m : Machine) : Except Fault Nat :=
  if reg_id ≥ REGISTER_COUNT then .error (.bail "invalid general register id")
  else .ok (m.register_pool reg_id)

/-- `Machine::get_register_i` (machine.rs lines 351-353). -/
def get_register_i (m : Machine) : Nat := m.register_i

/-- `Machine::set_register_i` (machine.rs lines 355-361). -/
def set_register_i (val : Nat) : ES Unit := fun m =>
  if val ≥ MEMORY_SIZE then (.error (.bail "reg i over flow"), m)
  else (.ok (), { m with register_i := val })

/-- `Machine::get_memory` (machine.rs lines 363-368), a `&self` read. -/
def get_memory (addr : Nat) (m : Machine) : Except Fault Nat :=
  if addr ≥ MEMORY_SIZE then .error (.bail "memory overflow")
  else .ok (m.memory addr)

/-- `Machine::set_memory` (machine.rs lines 370-376). -/
def set_memory (addr data : Nat) : ES Unit := fun m =>
  if addr ≥ MEMORY_SIZE then (.error (.bail "memory overflow"), m)
  else (.ok (), { m with memory := fun a => if a = addr then data else m.memory a })

/-- `Machine::get_opcode` (machine.rs lines 378-380):
`u16::from_be_bytes([hi, lo])` = `hi * 256 + lo`. -/
def get_opcode (addr : Nat) (m : Machine) : Except Fault Nat :=
  match get_memory addr m, get_memory (addr + 1) m with
  | .ok hi, .ok lo => .ok (hi * 256 + lo)
  | .error e, _ => .error e
  | .ok _, .error e => .error e

/-! ### 8-bit wrapping arithmetic (`u8::wrapping_add` / `wrapping_sub`) -/

def wrapping_add8 (a b : Nat) : Nat := (a + b) % 256

def wrapping_sub8 (a b : Nat) : Nat := (a % 256 + 256 - b % 256) % 256

/-! ### Draw (machine.rs lines 209-239)

The inner column loop `for xi in 0..8` with its `break` once
`x + xi ≥ DISPLAY_WIDTH`; structural recursion on the number of columns
left.  A pixel flip writes the buffer, marks it dirty, and sets VF on a
set→unset transition. -/

def draw_cols (x ye srow_map : Nat) : Nat → Nat → Machine → Machine
  | _, 0, m => m
  | xi, left + 1, m =>
    if x + xi ≥ DISPLAY_WIDTH then m
    else
      let cur_dis := m.display_buffer ye (x + xi)
      let sprite_dis := decide (srow_map &&& SPRITE_MASK xi ≠ 0)
      let new_dis := xor cur_dis sprite_dis
      if cur_dis ≠ new_dis then
        let m1 : Machine :=
          { m with
            display_buffer := fun r c => if r = ye ∧ c = x + xi then new_dis else m.display_buffer r c
            display_buffer_dirty := true }
        draw_cols x ye srow_map (xi + 1) left (if cur_dis then vf_set m1 else m1)
      else
        draw_cols x ye srow_map (xi + 1) left m

/-- The outer row loop `for yi in 0..height`: reads the sprite row byte
at the local cursor `i_addr` (a fallible memory read happening *before*
the row-clipping check), breaks once `y + yi ≥ DISPLAY_HEIGHT`, and
advances the cursor once per drawn row.  `cy` is `y + yi`. -/
def draw_rows (x cy i_addr : Nat) : Nat → ES Unit
  | 0 => fun m => (.ok (), m)
  | left + 1 =>
    ebindR (get_memory i_addr) fun srow_map => fun m =>
      if cy ≥ DISPLAY_HEIGHT then (.ok (), m)
      else draw_rows x (cy + 1) (i_addr + 1) left (draw_cols x cy srow_map 0 8 m)

/-- `Machine::draw` (machine.rs lines 209-239): anchor reduced mod 64/32,
VF cleared, then the row loop starting at the index register. -/
def draw (x y height : Nat) : ES Unit := fun m =>
  draw_rows (x % DISPLAY_WIDTH) (y % DISPLAY_HEIGHT) (get_register_i m) height (vf_clr m)

/-! ### Key event handling (machine.rs lines 259-293)

Events come from the external console collaborator; the loop body over
one event.  `key_state[n] = true/false` is a raw array write into
`[bool; 16]`, so `n ≥ 16` is a Rust panic (`crash`). -/

def handle_key_event (ke : KeyEvent) : ES Unit := fun m =>
  match ke with
  | .Pressed .Quit => (.ok (), { m with running := false })
  | .Pressed (.Num n) =>
    let m1 := if m.get_key_state = GetKeyState.Paused
              then { m with get_key_state := .Pressed n } else m
    if n ≥ 16 then (.error .crash, m1)
    else (.ok (), { m1 with key_state := fun j => if j = n then true else m1.key_state j })
  | .Released (.Num n) =>
    let m1 := match m.get_key_state with
              | .Pressed k => if k = n then { m with get_key_state := .Released k } else m
              | _ => m
    if n ≥ 16 then (.error .crash, m1)
    else (.ok (), { m1 with key_state := fun j => if j = n then false else m1.key_state j })
  | .Released .Quit => (.ok (), m)

/-- `Machine::handle_key_events` over an injected list of events. -/
def handle_key_events : List KeyEvent → ES Unit
  | [] => fun m => (.ok (), m)
  | ke :: rest => ebind (handle_key_event ke) fun _ => handle_key_events rest

/-! ### Store/Restore loops (machine.rs lines 631-648)

`for xi in 0..=x { ... iaddr += 1 }`, structural recursion on the number
of registers left; returns the final cursor value. -/

def store_loop (xi iaddr : Nat) : Nat → ES Nat
  | 0 => fun m => (.ok iaddr, m)
  | left + 1 =>
    ebindR (get_register xi) fun v =>
    ebind (set_memory iaddr v) fun _ =>
    store_loop (xi + 1) (iaddr + 1) left

def restore_loop (xi iaddr : Nat) : Nat → ES Nat
  | 0 => fun m => (.ok iaddr, m)
  | left + 1 =>
    ebindR (get_memory iaddr) fun v =>
    ebind (set_register xi v) fun _ =>
    restore_loop (xi + 1) (iaddr + 1) left

/-! ### The execution engine: the operation dispatch of `Machine::step`
(machine.rs lines 395-658).  Logging calls are omitted; every state
mutation and every bound check is kept in source order. -/

def exec (operation : Operation) : ES Unit :=
  match operation with
  | .CallSysC _ => advance
  | .Clear => ebind (emodify clear_display) fun _ => advance
  | .Return => fun m =>
    match m.stack with
    | ret_pc :: rest => set_pc ret_pc { m with stack := rest }
    | [] => (.error (.bail "call stack empty, no where to return"), m)
  | .JumpC c => set_pc c
  | .CallC c =>
    ebind advance fun _ => fun m =>
    set_pc c { m with stack := m.pc :: m.stack }
  | .SkipEqC x c =>
    ebindR (get_register x) fun xv =>
    if c = xv then advance_pc 2 else advance
  | .SkipNeC x c =>
    ebindR (get_register x) fun xv =>
    if c ≠ xv then advance_pc 2 else advance
  | .SkipEq x y =>
    ebindR (get_register x) fun xv =>
    ebindR (get_register y) fun yv =>
    if xv = yv then advance_pc 2 else advance
  | .SetC x c => ebind (set_register x c) fun _ => advance
  | .AddC x c =>
    ebindR (get_register x) fun xv =>
    ebind (set_register x (wrapping_add8 xv c)) fun _ => advance
  | .Set x y =>
    ebindR (get_register y) fun yv =>
    ebind (set_register x yv) fun _ => advance
  | .Or x y =>
    ebindR (get_register x) fun xv =>
    ebindR (get_register y) fun yv =>
    ebind (set_register x (xv ||| yv)) fun _ =>
    ebind clr_vf fun _ => advance
  | .And x y =>
    ebindR (get_register x) fun xv =>
    ebindR (get_register y) fun yv =>
    ebind (set_register x (xv &&& yv)) fun _ =>
    ebind clr_vf fun _ => advance
  | .Xor x y =>
    ebindR (get_register x) fun xv =>
    ebindR (get_register y) fun yv =>
    ebind (set_register x (xv ^^^ yv)) fun _ =>
    ebind clr_vf fun _ => advance
  | .Add x y =>
    ebindR (get_register x) fun xv =>
    ebindR (get_register y) fun yv =>
    ebind (set_register x (wrapping_add8 xv yv)) fun _ =>
    ebind (if wrapping_add8 xv yv < xv then set_vf else clr_vf) fun _ => advance
  | .Sub x y =>
    ebindR (get_register x) fun xv =>
    ebindR (get_register y) fun yv =>
    ebind (set_register x (wrapping_sub8 xv yv)) fun _ =>
    ebind (if wrapping_sub8 xv yv > xv then clr_vf else set_vf) fun _ => advance
  | .Shr x y =>
    ebindR (get_register y) fun yv =>
    ebind (set_register x (yv / 2)) fun _ =>
    ebind (if yv &&& 1 = 1 then set_vf else clr_vf) fun _ => advance
  | .SubRev x y =>
    ebindR (get_register x) fun xv =>
    ebindR (get_register y) fun yv =>
    ebind (set_register x (wrapping_sub8 yv xv)) fun _ =>
    ebind (if wrapping_sub8 yv xv > yv then clr_vf else set_vf) fun _ => advance
  | .Shl x y =>
    ebindR (get_register y) fun yv =>
    ebind (set_register x (yv * 2 % 256)) fun _ =>
    ebind (if yv &&& 0x80 = 0x80 then set_vf else clr_vf) fun _ => advance
  | .SkipNe x y =>
    ebindR (get_register x) fun xv =>
    ebindR (get_register y) fun yv =>
    if xv ≠ yv then advance_pc 2 else advance
  | .SetIC c => ebind (set_register_i c) fun _ => advance
  | .JumpV0C c =>
    ebindR (get_register 0) fun entry =>
    if entry + c ≥ 65536 then fun m => (.error (.bail "jumpV0C address overflow"), m)
    else set_pc (entry + c)
  | .RandC x c => fun m =>
    let randv := m.rng_stream m.rng_cnt % 256
    (ebind (set_register x (randv &&& c)) fun _ => advance) { m with rng_cnt := m.rng_cnt + 1 }
  | .DrawC x y c =>
    ebindR (get_register x) fun xv =>
    ebindR (get_register y) fun yv =>
    ebind (draw xv yv c) fun _ => advance
  | .SkipEqKey x =>
    ebindR (get_register x) fun key => fun m =>
    if key ≥ 16 then (.error .crash, m)
    else (if m.key_state key then advance_pc 2 else advance) m
  | .SkipNeKey x =>
    ebindR (get_register x) fun key => fun m =>
    if key ≥ 16 then (.error .crash, m)
    else (if ¬ m.key_state key then advance_pc 2 else advance) m
  | .GetDelayTimer x => fun m =>
    (ebind (set_register x m.delay_timer) fun _ => advance) m
  | .GetKey x => fun m =>
    match m.get_key_state with
    | .None => (.ok (), { m with get_key_state := .Paused })
    | .Released key =>
      (ebind (set_register x key) fun _ => advance) { m with get_key_state := .None }
    | _ => (.ok (), m)
  | .SetDelayTimer x =>
    ebindR (get_register x) fun xv =>
    ebind (emodify fun m => { m with delay_timer := xv }) fun _ => advance
  | .SetSoundTimer x =>
    ebindR (get_register x) fun xv =>
    ebind (emodify fun m => { m with sound_timer := xv }) fun _ => advance
  | .AddI x =>
    ebindR (get_register x) fun xv => fun m =>
    (ebind (set_register_i (get_register_i m + xv)) fun _ => advance) m
  | .SetIFont x =>
    ebindR (get_register x) fun xv => fun m =>
    let offset := xv * m.font_address
    (ebind (set_register_i ((m.font_address + offset) % 65536)) fun _ => advance) m
  | .Bcd x =>
    ebindR (get_register x) fun xv => fun m =>
    (ebind (set_memory m.register_i (xv / 100 % 10)) fun _ =>
     ebind (set_memory (m.register_i + 1) (xv / 10 % 10)) fun _ =>
     ebind (set_memory (m.register_i + 2) (xv % 10)) fun _ => advance) m
  | .Store x => fun m =>
    (ebind (store_loop 0 (get_register_i m) (x + 1)) fun iaddr =>
     ebind (set_register_i (iaddr % 65536)) fun _ => advance) m
  | .Restore x => fun m =>
    (ebind (restore_loop 0 (get_register_i m) (x + 1)) fun iaddr =>
     ebind (set_register_i (iaddr % 65536)) fun _ => advance) m
  | .Unknown _ => advance

/-- `Machine::step` (machine.rs lines 395-658): fetch the opcode at the
program counter, decode it, execute the operation. -/
def step : ES Unit := fun m =>
  match get_opcode m.pc m with
  | .error e => (.error e, m)
  | .ok opc => exec (parse_opcode opc) m

/-! ### Proof toolkit: success-case destructors for the effect
combinators and the checked accessors. -/

theorem err_ne_ok {α : Type} {e : Fault} {v : α} {m m1 : Machine}
    (h : ((Except.error e, m) : Except Fault α × Machine) = (Except.ok v, m1)) : False :=
  Except.noConfusion (congrArg Prod.fst h)

theorem ok_snd {α : Type} {v w : α} {m m1 : Machine}
    (h : ((Except.ok v, m) : Except Fault α × Machine) = (Except.ok w, m1)) : m = m1 :=
  congrArg Prod.snd h

theorem ebind_cases {α β : Type} {a : ES α} {f : α → ES β} {m m2 : Machine} {v : β}
    (h : ebind a f m = (.ok v, m2)) : ∃ b m1, a m = (.ok b, m1) ∧ f b m1 = (.ok v, m2) := by
  unfold ebind at h
  rcases ha : a m with ⟨r, m1⟩
  cases r with
  | error e => rw [ha] at h; exact (err_ne_ok h).elim
  | ok b => rw [ha] at h; exact ⟨b, m1, rfl, h⟩

theorem ebindR_cases {α β : Type} {r : Machine → Except Fault α} {f : α → ES β}
    {m m1 : Machine} {v : β}
    (h : ebindR r f m = (.ok v, m1)) : ∃ a, r m = .ok a ∧ f a m = (.ok v, m1) := by
  unfold ebindR at h
  rcases hr : r m with e | a
  · rw [hr] at h; exact (err_ne_ok h).elim
  · rw [hr] at h; exact ⟨a, rfl, h⟩

theorem ebind_ok {α β : Type} {a : ES α} {m m1 : Machine} {v : α}
    (h : a m = (.ok v, m1)) (f : α → ES β) : ebind a f m = f v m1 := by
  unfold ebind; rw [h]

theorem ebindR_ok {α β : Type} {r : Machine → Except Fault α} {m : Machine} {v : α}
    (h : r m = .ok v) (f : α → ES β) : ebindR r f m = f v m := by
  unfold ebindR; rw [h]

theorem ebindR_err {α β : Type} {r : Machine → Except Fault α} {m : Machine} {e : Fault}
    (h : r m = .error e) (f : α → ES β) : ebindR r f m = (.error e, m) := by
  unfold ebindR; rw [h]

theorem get_register_cases {reg_id : Nat} {m : Machine} {v : Nat}
    (h : get_register reg_id m = .ok v) : reg_id < REGISTER_COUNT ∧ v = m.register_pool reg_id := by
  unfold get_register at h
  by_cases hr : reg_id ≥ REGISTER_COUNT
  · rw [if_pos hr] at h; exact Except.noConfusion h
  · rw [if_neg hr] at h
    injection h with h
    exact ⟨by omega, h.symm⟩

theorem get_register_ok {reg_id : Nat} (h : reg_id < REGISTER_COUNT) (m : Machine) :
    get_register reg_id m = .ok (m.register_pool reg_id) := by
  unfold get_register; rw [if_neg (by omega)]

theorem get_memory_cases {addr : Nat} {m : Machine} {v : Nat}
    (h : get_memory addr m = .ok v) : addr < MEMORY_SIZE ∧ v = m.memory addr := by
  unfold get_memory at h
  by_cases hr : addr ≥ MEMORY_SIZE
  · rw [if_pos hr] at h; exact Except.noConfusion h
  · rw [if_neg hr] at h
    injection h with h
    exact ⟨by omega, h.symm⟩

theorem get_memory_ok {addr : Nat} (h : addr < MEMORY_SIZE) (m : Machine) :
    get_memory addr m = .ok (m.memory addr) := by
  unfold get_memory; rw [if_neg (by omega)]

theorem set_register_cases {reg_id val : Nat} {m m1 : Machine}
    (h : set_register reg_id val m = (.ok (), m1)) :
    reg_id < REGISTER_COUNT ∧
    m1 = { m with register_pool := fun j => if j = reg_id then val else m.register_pool j } := by
  unfold set_register at h
  by_cases hr : reg_id ≥ REGISTER_COUNT
  · rw [if_pos hr] at h; exact (err_ne_ok h).elim
  · rw [if_neg hr] at h; exact ⟨by omega, (ok_snd h).symm⟩

theorem set_register_ok {reg_id : Nat} (h : reg_id < REGISTER_COUNT) (val : Nat) (m : Machine) :
    set_register reg_id val m =
      (.ok (), { m with register_pool := fun j => if j = reg_id then val else m.register_pool j }) := by
  unfold set_register; rw [if_neg (by omega)]

theorem set_memory_cases {addr val : Nat} {m m1 : Machine}
    (h : set_memory addr val m = (.ok (), m1)) :
    addr < MEMORY_SIZE ∧
    m1 = { m with memory := fun a => if a = addr then val else m.memory a } := by
  unfold set_memory at h
  by_cases hr : addr ≥ MEMORY_SIZE
  · rw [if_pos hr] at h; exact (err_ne_ok h).elim
  · rw [if_neg hr] at h; exact ⟨by omega, (ok_snd h).symm⟩

theorem set_memory_ok {addr : Nat} (h : addr < MEMORY_SIZE) (val : Nat) (m : Machine) :
    set_memory addr val m =
      (.ok (), { m with memory := fun a => if a = addr then val else m.memory a }) := by
  unfold set_memory; rw [if_neg (by omega)]

theorem set_register_i_cases {val : Nat} {m m1 : Machine}
    (h : set_register_i val m = (.ok (), m1)) :
    val < MEMORY_SIZE ∧ m1 = { m with register_i := val } := by
  unfold set_register_i at h
  by_cases hr : val ≥ MEMORY_SIZE
  · rw [if_pos hr] at h; exact (err_ne_ok h).elim
  · rw [if_neg hr] at h; exact ⟨by omega, (ok_snd h).symm⟩

theorem set_register_i_ok {val : Nat} (h : val < MEMORY_SIZE) (m : Machine) :
    set_register_i val m = (.ok (), { m with register_i := val }) := by
  unfold set_register_i; rw [if_neg (by omega)]

theorem set_register_i_err {val : Nat} (h : MEMORY_SIZE ≤ val) (m : Machine) :
    set_register_i val m = (.error (.bail "reg i over flow"), m) := by
  unfold set_register_i; rw [if_pos h]

theorem set_pc_cases {p : Nat} {m m1 : Machine}
    (h : set_pc p m = (.ok (), m1)) : p < MEMORY_SIZE ∧ m1 = { m with pc := p } := by
  unfold set_pc at h
  by_cases hr : p ≥ MEMORY_SIZE
  · rw [if_pos hr] at h; exact (err_ne_ok h).elim
  · rw [if_neg hr] at h; exact ⟨by omega, (ok_snd h).symm⟩

theorem advance_pc_cases {d : Nat} {m m1 : Machine}
    (h : advance_pc d m = (.ok (), m1)) :
    m.pc + d * 2 < MEMORY_SIZE ∧ m1 = { m with pc := m.pc + d * 2 } := by
  unfold advance_pc at h
  by_cases hr : m.pc + d * 2 ≥ MEMORY_SIZE
  · rw [if_pos hr] at h; exact (err_ne_ok h).elim
  · rw [if_neg hr] at h; exact ⟨by omega, (ok_snd h).symm⟩

theorem advance_cases {m m1 : Machine}
    (h : advance m = (.ok (), m1)) :
    m.pc + 2 < MEMORY_SIZE ∧ m1 = { m with pc := m.pc + 2 } := by
  have := advance_pc_cases (d := 1) h
  exact ⟨by omega, by rw [this.2]⟩

theorem advance_ok {m : Machine} (h : m.pc + 2 < MEMORY_SIZE) :
    advance m = (.ok (), { m with pc := m.pc + 2 }) := by
  unfold advance advance_pc; rw [if_neg (by omega)]

theorem advance_pc_ok {d : Nat} {m : Machine} (h : m.pc + d * 2 < MEMORY_SIZE) :
    advance_pc d m = (.ok (), { m with pc := m.pc + d * 2 }) := by
  unfold advance_pc; rw [if_neg (by omega)]

/-! ### Claim C1 — category-5 decoding

The decoder does *not* inspect the bottom nibble of a category-5 word
(opcode.rs line 210), unlike category 9 (lines 225-231): every `0x5XYk`
decodes to `SkipEq(X, Y)`, including `0x5678`. -/

/-- Claim C1 is false on the code: `0x5678` is a category-5 word with a
nonzero bottom nibble, yet `parse_opcode` decodes it to `SkipEq(6, 7)`. -/
theorem claim_C1_counterexample :
    parse_opcode 0x5678 = .SkipEq 6 7 ∧ op0 0x5678 = 0x5 ∧ op3 0x5678 ≠ 0 := by
  refine ⟨by decide, by decide, by decide⟩

/-- Claim C1 (amended): every 16-bit word whose top nibble is 0x5
decodes to `SkipEq(X, Y)` regardless of its bottom nibble — the decoder
performs no low-nibble check on category 5. -/
theorem claim_C1_amended_skipeq_decode (w : Nat) (h : op0 w = 0x5) :
    parse_opcode w = .SkipEq (op1 w) (op2 w) := by
  unfold parse_opcode
  rw [h]

/-- Witness for C1's amended theorem at the concrete word 0x5120. -/
theorem claim_C1_witness : parse_opcode 0x5120 = .SkipEq 1 2 :=
  (claim_C1_amended_skipeq_decode 0x5120 (by decide)).trans (by decide)

/-! ### Claim C2 — load bounds

`Machine::load` (machine.rs lines 162-169) bails whenever
`address + data.len() >= MEMORY_SIZE`, so an exactly-filling load
(`address + len == 4096`) is rejected too, matching the interface
contract in spec §6 ("fails if address + len ≥ 4096") but not the
boundary stated by the claim. -/

/-- Claim C2 is false on the code: at `address + data.len() == 4096`
(address 4095, one byte) `load` fails with the memory-overflow error
instead of succeeding. -/
theorem claim_C2_counterexample :
    load 4095 [0] init_machine = (.error (.bail "memory overflow"), init_machine) ∧
    4095 + ([0] : List Nat).length = 4096 :=
  ⟨rfl, rfl⟩

/-- Claim C2 (amended): `load(address, data)` succeeds exactly when
`address + data.len() ≤ 4095`; every `address + data.len() ≥ 4096`
(4096 and 4097 alike) fails with the MemoryOverflow error and leaves the
machine unchanged. -/
theorem claim_C2_amended_load_bounds (m : Machine) (address : Nat) (data : List Nat) :
    (address + data.length < MEMORY_SIZE → (load address data m).1 = .ok ()) ∧
    (MEMORY_SIZE ≤ address + data.length →
      load address data m = (.error (.bail "memory overflow"), m)) := by
  constructor
  · intro h
    unfold load
    rw [if_neg (by omega)]
  · intro h
    unfold load
    rw [if_pos h]

/-- Witness for C2's amended theorem: a 3-byte load at 0 succeeds, a
3-byte load at 4094 (`address + len == 4097`) fails. -/
theorem claim_C2_witness :
    (load 0 [1, 2, 3] init_machine).1 = .ok () ∧
    load 4094 [0, 0, 0] init_machine = (.error (.bail "memory overflow"), init_machine) :=
  ⟨(claim_C2_amended_load_bounds init_machine 0 [1, 2, 3]).1 (by decide),
   (claim_C2_amended_load_bounds init_machine 4094 [0, 0, 0]).2 (by decide)⟩

/-! ### Claim C3 — key-stored skips with a register value ≥ 16

machine.rs lines 561-580 index `self.key_state[key as usize]` directly,
where `key` is the full 8-bit register value and `key_state` is
`[bool; 16]`: any register value ≥ 16 makes the Rust index operation
panic.  This contradicts the opcode catalogue's own documentation
("only consider the lowest nibble", opcode.rs lines 102 and 106) and the
spec's error taxonomy ("all as explicit failure results"), so the code,
not the claim, is wrong. -/

/-- The machine with V0 = 16, the smallest register value on which the
key-stored skips blow up. -/
def mKey16 : Machine :=
  { init_machine with register_pool := fun j => if j = 0 then 16 else 0 }

/-- Claim C3's failing input evaluated: with V0 = 16 both `SkipEqKey(0)`
and `SkipNeKey(0)` hit the out-of-bounds index `key_state[16]` — a Rust
panic (`crash`), not an explicit failure result and not a program-counter
advance. -/
theorem claim_C3_code_bug :
    exec (.SkipEqKey 0) mKey16 = (.error .crash, mKey16) ∧
    exec (.SkipNeKey 0) mKey16 = (.error .crash, mKey16) :=
  ⟨rfl, rfl⟩

/-! ### Claim C8 — Clear resets pixels, advances PC, leaves dirty flag -/

/-- Claim C8: a successful `Clear` step sets every pixel of the 64×32
grid to unset, advances the program counter by exactly 2, and leaves the
display dirty flag unchanged (`clear_display` never touches it). -/
theorem claim_C8_clear_semantics (m m1 : Machine) (h : exec .Clear m = (.ok (), m1)) :
    (∀ r c, r < DISPLAY_HEIGHT → c < DISPLAY_WIDTH → m1.display_buffer r c = false) ∧
    m1.pc = m.pc + 2 ∧
    m1.display_buffer_dirty = m.display_buffer_dirty := by
  simp only [exec] at h
  obtain ⟨u, mA, hA, h⟩ := ebind_cases h
  cases u
  unfold emodify at hA
  have hmA := ok_snd hA
  obtain ⟨hpc, hm1⟩ := advance_cases h
  subst hm1
  rw [← hmA]
  refine ⟨?_, rfl, rfl⟩
  intro r c hr hc
  show (if r < DISPLAY_HEIGHT ∧ c < DISPLAY_WIDTH then false else m.display_buffer r c) = false
  rw [if_pos ⟨hr, hc⟩]

/-- A machine with one lit pixel and a clean dirty flag, for the C8
witness: clearing really had pixels to erase yet never marks dirty. -/
def mLit : Machine :=
  { init_machine with display_buffer := fun r c => if r = 0 ∧ c = 0 then true else false }

/-- Witness for C8 at a concrete machine with a lit pixel. -/
theorem claim_C8_witness :
    (exec .Clear mLit).2.display_buffer 0 0 = false ∧
    (exec .Clear mLit).2.pc = mLit.pc + 2 ∧
    (exec .Clear mLit).2.display_buffer_dirty = mLit.display_buffer_dirty := by
  obtain ⟨hpix, hpc, hdirty⟩ := claim_C8_clear_semantics mLit (exec .Clear mLit).2 rfl
  exact ⟨hpix 0 0 (by decide) (by decide), hpc, hdirty⟩

/-! ### Claim C6 — Add wraps and sets VF; the x = 0xF corner

machine.rs lines 475-487: the wrapped sum is written to register x
*first*, then the carry flag is written to VF — so when x = 0xF the flag
overwrites the stored sum and the final value of register x is the flag,
not the sum.  The claim's universal "stores the wrapped sum into x"
therefore fails at x = 0xF. -/

/-- VF = 0xFF, V0 = 1: the carry case targeting the flag register. -/
def mAddVF : Machine :=
  { init_machine with register_pool := fun j => if j = 15 then 255 else if j = 0 then 1 else 0 }

/-- Claim C6 is false on the code at x = 0xF: `Add(0xF, 0)` with
VF = 0xFF, V0 = 1 succeeds, the wrapped sum is 0x00, yet register 0xF
ends up holding 1 (the carry flag overwrote the sum). -/
theorem claim_C6_counterexample :
    (exec (.Add 15 0) mAddVF).1 = .ok () ∧
    (mAddVF.register_pool 15 + mAddVF.register_pool 0) % 256 = 0 ∧
    (exec (.Add 15 0) mAddVF).2.register_pool 15 = 1 ∧
    (exec (.Add 15 0) mAddVF).2.register_pool 15 ≠
      (mAddVF.register_pool 15 + mAddVF.register_pool 0) % 256 :=
  ⟨rfl, by decide, by decide, by decide⟩

/-- Claim C6 (amended): for every successful register-register `Add`,
VF afterwards is 1 exactly when the wrapped sum is numerically less than
the first operand's original value, else 0; the wrapped sum (mod 256) is
stored in x whenever x ≠ 0xF (when x = 0xF the flag write overwrites it);
and the immediate operations `AddC`/`SetC` use 8-bit wraparound
(immediates are 8-bit, `oph1 < 256`). -/
theorem claim_C6_amended_add_semantics (m m1 m2 m3 : Machine) (x y c : Nat) (hc : c < 256)
    (h1 : exec (.Add x y) m = (.ok (), m1))
    (h2 : exec (.AddC x c) m = (.ok (), m2))
    (h3 : exec (.SetC x c) m = (.ok (), m3)) :
    m1.register_pool 0xF =
      (if (m.register_pool x + m.register_pool y) % 256 < m.register_pool x then 1 else 0) ∧
    (x ≠ 0xF → m1.register_pool x = (m.register_pool x + m.register_pool y) % 256) ∧
    m2.register_pool x = (m.register_pool x + c) % 256 ∧
    m3.register_pool x = c % 256 := by
  simp only [exec] at h1 h2 h3
  obtain ⟨xv, hxv, h1⟩ := ebindR_cases h1
  obtain ⟨hxlt, hxveq⟩ := get_register_cases hxv
  subst hxveq
  obtain ⟨yv, hyv, h1⟩ := ebindR_cases h1
  obtain ⟨-, hyveq⟩ := get_register_cases hyv
  subst hyveq
  obtain ⟨u, mA, hset, h1⟩ := ebind_cases h1
  cases u
  obtain ⟨-, hmA⟩ := set_register_cases hset
  obtain ⟨xv2, hxv2, h2⟩ := ebindR_cases h2
  obtain ⟨-, hxv2eq⟩ := get_register_cases hxv2
  subst hxv2eq
  obtain ⟨u2, mB, hset2, h2⟩ := ebind_cases h2
  cases u2
  obtain ⟨-, hmB⟩ := set_register_cases hset2
  obtain ⟨hpcB, hm2⟩ := advance_cases h2
  obtain ⟨u3, mC, hset3, h3⟩ := ebind_cases h3
  cases u3
  obtain ⟨-, hmC⟩ := set_register_cases hset3
  obtain ⟨hpcC, hm3⟩ := advance_cases h3
  have hAddC : m2.register_pool x = (m.register_pool x + c) % 256 := by
    rw [hm2, hmB]
    show (if x = x then wrapping_add8 (m.register_pool x) c else m.register_pool x) = _
    rw [if_pos rfl]
    rfl
  have hSetC : m3.register_pool x = c % 256 := by
    rw [hm3, hmC]
    show (if x = x then c else m.register_pool x) = _
    rw [if_pos rfl, Nat.mod_eq_of_lt hc]
  by_cases hlt : wrapping_add8 (m.register_pool x) (m.register_pool y) < m.register_pool x
  · rw [if_pos hlt] at h1
    rw [ebind_ok (show set_vf mA = (.ok (), vf_set mA) from rfl)] at h1
    obtain ⟨hpc1, hm1⟩ := advance_cases h1
    refine ⟨?_, ?_, hAddC, hSetC⟩
    · rw [if_pos (show (m.register_pool x + m.register_pool y) % 256 < m.register_pool x
          from hlt)]
      rw [hm1]
      show (if (0xF : Nat) = 0xF then 1 else mA.register_pool 0xF) = 1
      rw [if_pos rfl]
    · intro hxne
      rw [hm1]
      show (if x = 0xF then 1 else mA.register_pool x) = _
      rw [if_neg hxne, hmA]
      show (if x = x then wrapping_add8 (m.register_pool x) (m.register_pool y)
        else m.register_pool x) = _
      rw [if_pos rfl]
      rfl
  · rw [if_neg hlt] at h1
    rw [ebind_ok (show clr_vf mA = (.ok (), vf_clr mA) from rfl)] at h1
    obtain ⟨hpc1, hm1⟩ := advance_cases h1
    refine ⟨?_, ?_, hAddC, hSetC⟩
    · rw [if_neg (show ¬ (m.register_pool x + m.register_pool y) % 256 < m.register_pool x
          from hlt)]
      rw [hm1]
      show (if (0xF : Nat) = 0xF then 0 else mA.register_pool 0xF) = 0
      rw [if_pos rfl]
    · intro hxne
      rw [hm1]
      show (if x = 0xF then 0 else mA.register_pool x) = _
      rw [if_neg hxne, hmA]
      show (if x = x then wrapping_add8 (m.register_pool x) (m.register_pool y)
        else m.register_pool x) = _
      rw [if_pos rfl]
      rfl

/-- 0xFF + 0x01 in distinct registers, for the C6 witness. -/
def mAddEx : Machine :=
  { init_machine with register_pool := fun j =>
      if j = 0 then 0xFF else if j = 1 then 0x01 else if j = 2 then 0x01 else 0 }

/-- Witness for C6's amended theorem: `Add(0, 1)` on V0 = 0xFF, V1 = 0x01
stores 0x00 in V0 and sets VF to 1. -/
theorem claim_C6_witness :
    (exec (.Add 0 1) mAddEx).2.register_pool 0 = 0 ∧
    (exec (.Add 0 1) mAddEx).2.register_pool 15 = 1 := by
  obtain ⟨hvf, hsum, -, -⟩ :=
    claim_C6_amended_add_semantics mAddEx
      (exec (.Add 0 1) mAddEx).2 (exec (.AddC 0 5) mAddEx).2 (exec (.SetC 0 5) mAddEx).2
      0 1 5 (by decide) rfl rfl rfl
  refine ⟨?_, ?_⟩
  · rw [hsum (by decide)]; decide
  · rw [hvf]; decide

/-! ### Stage lemmas for the GetKey round trip (claim C5) -/

theorem exec_getkey_none (mm : Machine) (x : Nat) (hg : mm.get_key_state = GetKeyState.None) :
    exec (.GetKey x) mm = (.ok (), { mm with get_key_state := .Paused }) := by
  simp only [exec, hg]

theorem exec_getkey_released (mm : Machine) (x key : Nat) (hx : x < REGISTER_COUNT)
    (hg : mm.get_key_state = GetKeyState.Released key) (hpc : mm.pc + 2 < MEMORY_SIZE) :
    exec (.GetKey x) mm =
      (.ok (), { mm with
        get_key_state := .None
        register_pool := fun j => if j = x then key else mm.register_pool j
        pc := mm.pc + 2 }) := by
  simp only [exec, hg]
  rw [ebind_ok (set_register_ok hx key { mm with get_key_state := GetKeyState.None })]
  unfold advance advance_pc
  dsimp only
  rw [if_neg (show ¬ mm.pc + 1 * 2 ≥ MEMORY_SIZE by omega)]

theorem exec_getkey_other (mm : Machine) (x : Nat)
    (h1 : mm.get_key_state = GetKeyState.Paused ∨ ∃ k, mm.get_key_state = GetKeyState.Pressed k) :
    exec (.GetKey x) mm = (.ok (), mm) := by
  rcases h1 with h | ⟨k, h⟩ <;> simp only [exec, h]

theorem hke_press_paused (mm : Machine) (n : Nat) (hn : n < 16)
    (hp : mm.get_key_state = GetKeyState.Paused) :
    handle_key_event (.Pressed (.Num n)) mm =
      (.ok (), { mm with
        get_key_state := .Pressed n
        key_state := fun j => if j = n then true else mm.key_state j }) := by
  simp only [handle_key_event]
  rw [if_pos hp]
  rw [if_neg (show ¬ n ≥ 16 by omega)]

theorem hke_press_not_paused (mm : Machine) (n : Nat) (hn : n < 16)
    (hp : mm.get_key_state ≠ GetKeyState.Paused) :
    handle_key_event (.Pressed (.Num n)) mm =
      (.ok (), { mm with key_state := fun j => if j = n then true else mm.key_state j }) := by
  simp only [handle_key_event]
  rw [if_neg hp]
  rw [if_neg (show ¬ n ≥ 16 by omega)]

theorem hke_release_pressed (mm : Machine) (n : Nat) (hn : n < 16)
    (hp : mm.get_key_state = GetKeyState.Pressed n) :
    handle_key_event (.Released (.Num n)) mm =
      (.ok (), { mm with
        get_key_state := .Released n
        key_state := fun j => if j = n then false else mm.key_state j }) := by
  simp only [handle_key_event, hp, if_true]
  rw [if_neg (show ¬ n ≥ 16 by omega)]

/-! ### Claim C5 — the GetKey round trip -/

/-- Claim C5: from input state Idle (`None`), `GetKey(x)` moves the input
state to `Paused` without advancing the program counter; a press of key 7
moves it to `Pressed 7`; the matching release moves it to `Released 7`;
the next `GetKey(x)` step writes 7 into register x, advances the program
counter by exactly 2 and returns the input state to Idle.  Separately, a
key press while the input state is not `Paused` succeeds and only updates
the live key flag of that key. -/
theorem claim_C5_getkey_roundtrip (m m1 m2 m3 m4 : Machine) (x : Nat)
    (hx : x < REGISTER_COUNT) (hg : m.get_key_state = GetKeyState.None)
    (hpc : m.pc + 2 < MEMORY_SIZE)
    (e1 : m1 = (exec (.GetKey x) m).2)
    (e2 : m2 = (handle_key_event (.Pressed (.Num 7)) m1).2)
    (e3 : m3 = (handle_key_event (.Released (.Num 7)) m2).2)
    (e4 : m4 = (exec (.GetKey x) m3).2) :
    (exec (.GetKey x) m).1 = .ok () ∧
    m1.get_key_state = .Paused ∧ m1.pc = m.pc ∧
    m2.get_key_state = .Pressed 7 ∧
    m3.get_key_state = .Released 7 ∧
    (exec (.GetKey x) m3).1 = .ok () ∧
    m4.register_pool x = 7 ∧ m4.pc = m.pc + 2 ∧ m4.get_key_state = .None ∧
    (∀ mm k, k < 16 → mm.get_key_state ≠ GetKeyState.Paused →
      (handle_key_event (.Pressed (.Num k)) mm).1 = .ok () ∧
      (handle_key_event (.Pressed (.Num k)) mm).2.get_key_state = mm.get_key_state ∧
      (handle_key_event (.Pressed (.Num k)) mm).2.pc = mm.pc ∧
      (handle_key_event (.Pressed (.Num k)) mm).2.key_state k = true ∧
      (∀ j, j ≠ k → (handle_key_event (.Pressed (.Num k)) mm).2.key_state j = mm.key_state j)) := by
  have s1 := exec_getkey_none m x hg
  have hm1 : m1 = { m with get_key_state := .Paused } := by rw [e1, s1]
  have s2 := hke_press_paused m1 7 (by omega) (by rw [hm1])
  have hm2 : m2 = { m1 with
      get_key_state := .Pressed 7
      key_state := fun j => if j = 7 then true else m1.key_state j } := by rw [e2, s2]
  have s3 := hke_release_pressed m2 7 (by omega) (by rw [hm2])
  have hm3 : m3 = { m2 with
      get_key_state := .Released 7
      key_state := fun j => if j = 7 then false else m2.key_state j } := by rw [e3, s3]
  have hm3pc : m3.pc = m.pc := by rw [hm3, hm2, hm1]
  have hgks3 : m3.get_key_state = GetKeyState.Released 7 := by rw [hm3]
  have s4 := exec_getkey_released m3 x 7 hx hgks3 (by rw [hm3pc]; exact hpc)
  have hm4 : m4 = { m3 with
      get_key_state := .None
      register_pool := fun j => if j = x then 7 else m3.register_pool j
      pc := m3.pc + 2 } := by rw [e4, s4]
  refine ⟨by rw [s1], by rw [hm1], by rw [hm1], by rw [hm2], hgks3, by rw [s4],
    ?_, ?_, by rw [hm4], ?_⟩
  · rw [hm4]
    show (if x = x then 7 else m3.register_pool x) = 7
    rw [if_pos rfl]
  · rw [hm4]
    show m3.pc + 2 = m.pc + 2
    rw [hm3pc]
  · intro mm k hk hnp
    have s := hke_press_not_paused mm k hk hnp
    refine ⟨by rw [s], by rw [s], by rw [s], ?_, ?_⟩
    · rw [s]
      show (if k = k then true else mm.key_state k) = true
      rw [if_pos rfl]
    · intro j hj
      rw [s]
      show (if j = k then true else mm.key_state j) = mm.key_state j
      rw [if_neg hj]

/-- Witness for C5: the full round trip on the zero machine with target
register 2 and key 7. -/
theorem claim_C5_witness :
    (exec (.GetKey 2)
      (handle_key_event (.Released (.Num 7))
        (handle_key_event (.Pressed (.Num 7))
          (exec (.GetKey 2) init_machine).2).2).2).2.register_pool 2 = 7 ∧
    (exec (.GetKey 2)
      (handle_key_event (.Released (.Num 7))
        (handle_key_event (.Pressed (.Num 7))
          (exec (.GetKey 2) init_machine).2).2).2).2.pc = init_machine.pc + 2 ∧
    (exec (.GetKey 2)
      (handle_key_event (.Released (.Num 7))
        (handle_key_event (.Pressed (.Num 7))
          (exec (.GetKey 2) init_machine).2).2).2).2.get_key_state = .None := by
  obtain ⟨-, -, -, -, -, -, hreg, hpc, hgks, -⟩ :=
    claim_C5_getkey_roundtrip init_machine
      (exec (.GetKey 2) init_machine).2
      (handle_key_event (.Pressed (.Num 7)) (exec (.GetKey 2) init_machine).2).2
      (handle_key_event (.Released (.Num 7))
        (handle_key_event (.Pressed (.Num 7)) (exec (.GetKey 2) init_machine).2).2).2
      (exec (.GetKey 2)
        (handle_key_event (.Released (.Num 7))
          (handle_key_event (.Pressed (.Num 7)) (exec (.GetKey 2) init_machine).2).2).2).2
      2 (by decide) rfl (by decide) rfl rfl rfl rfl
  exact ⟨hreg, hpc, hgks⟩

/-! ### Store/Restore loop characterisation (claims C4, C10) -/

theorem ebind_err {α β : Type} {a : ES α} {m m1 : Machine} {e : Fault}
    (h : a m = (.error e, m1)) (f : α → ES β) : ebind a f m = (.error e, m1) := by
  unfold ebind; rw [h]

theorem MEMORY_SIZE_val : MEMORY_SIZE = 4096 := rfl

theorem REGISTER_COUNT_val : REGISTER_COUNT = 16 := rfl

/-- The store loop, run under in-bounds conditions: it succeeds, returns
the cursor advanced once per register, and writes register `xi + k` to
address `iaddr + k` for each `k < left`, leaving all other state alone. -/
theorem store_loop_char : ∀ (left xi iaddr : Nat) (m : Machine),
    (∀ k, k < left → xi + k < REGISTER_COUNT) →
    (∀ k, k < left → iaddr + k < MEMORY_SIZE) →
    store_loop xi iaddr left m =
      (.ok (iaddr + left),
       { m with memory := fun a =>
           if iaddr ≤ a ∧ a < iaddr + left then m.register_pool (xi + (a - iaddr))
           else m.memory a }) := by
  intro left
  induction left with
  | zero =>
    intro xi iaddr m hr hm
    have hmem : (fun a =>
        if iaddr ≤ a ∧ a < iaddr + 0 then m.register_pool (xi + (a - iaddr))
        else m.memory a) = m.memory := by
      funext a
      rw [if_neg (by omega)]
    show ((Except.ok iaddr, m) : Except Fault Nat × Machine) = _
    rw [hmem]
    rfl
  | succ left ih =>
    intro xi iaddr m hr hm
    have hxi : xi < REGISTER_COUNT := by have := hr 0 (by omega); omega
    have hia : iaddr < MEMORY_SIZE := by have := hm 0 (by omega); omega
    show (ebindR (get_register xi) fun v =>
      ebind (set_memory iaddr v) fun _ => store_loop (xi + 1) (iaddr + 1) left) m = _
    rw [ebindR_ok (get_register_ok hxi m)]
    rw [ebind_ok (set_memory_ok hia (m.register_pool xi) m)]
    rw [ih (xi + 1) (iaddr + 1)
      { m with memory := fun a => if a = iaddr then m.register_pool xi else m.memory a }
      (fun k hk => by have := hr (k + 1) (by omega); omega)
      (fun k hk => by have := hm (k + 1) (by omega); omega)]
    congr 1
    · congr 1
      omega
    · congr 1
      funext a
      dsimp only
      by_cases h1 : iaddr + 1 ≤ a ∧ a < iaddr + 1 + left
      · rw [if_pos h1, if_pos (show iaddr ≤ a ∧ a < iaddr + (left + 1) from by omega)]
        congr 1
        omega
      · rw [if_neg h1]
        by_cases h2 : a = iaddr
        · rw [if_pos h2, if_pos (show iaddr ≤ a ∧ a < iaddr + (left + 1) from by omega)]
          subst h2
          congr 1
          omega
        · rw [if_neg h2, if_neg (show ¬ (iaddr ≤ a ∧ a < iaddr + (left + 1)) from by omega)]

/-- A successful store-loop run implies every register index and every
written address was in bounds. -/
theorem store_loop_ok_bounds : ∀ (left xi iaddr : Nat) (m m1 : Machine) (ret : Nat),
    store_loop xi iaddr left m = (.ok ret, m1) →
    ∀ k, k < left → xi + k < REGISTER_COUNT ∧ iaddr + k < MEMORY_SIZE := by
  intro left
  induction left with
  | zero => intro xi iaddr m m1 ret h k hk; omega
  | succ left ih =>
    intro xi iaddr m m1 ret h k hk
    simp only [store_loop] at h
    obtain ⟨v, hv, h⟩ := ebindR_cases h
    obtain ⟨hxi, -⟩ := get_register_cases hv
    obtain ⟨u, mA, hsm, h⟩ := ebind_cases h
    cases u
    obtain ⟨hia, -⟩ := set_memory_cases hsm
    by_cases hk0 : k = 0
    · subst hk0
      exact ⟨by omega, by omega⟩
    · have := ih _ _ _ _ _ h (k - 1) (by omega)
      exact ⟨by omega, by omega⟩

/-- The restore loop, run under in-bounds conditions: it succeeds,
returns the advanced cursor and fills register `xi + k` from address
`iaddr + k` for each `k < left` (memory is never written). -/
theorem restore_loop_char : ∀ (left xi iaddr : Nat) (m : Machine),
    (∀ k, k < left → xi + k < REGISTER_COUNT) →
    (∀ k, k < left → iaddr + k < MEMORY_SIZE) →
    restore_loop xi iaddr left m =
      (.ok (iaddr + left),
       { m with register_pool := fun j =>
           if xi ≤ j ∧ j < xi + left then m.memory (iaddr + (j - xi))
           else m.register_pool j }) := by
  intro left
  induction left with
  | zero =>
    intro xi iaddr m hr hm
    have hpool : (fun j =>
        if xi ≤ j ∧ j < xi + 0 then m.memory (iaddr + (j - xi))
        else m.register_pool j) = m.register_pool := by
      funext j
      rw [if_neg (by omega)]
    show ((Except.ok iaddr, m) : Except Fault Nat × Machine) = _
    rw [hpool]
    rfl
  | succ left ih =>
    intro xi iaddr m hr hm
    have hxi : xi < REGISTER_COUNT := by have := hr 0 (by omega); omega
    have hia : iaddr < MEMORY_SIZE := by have := hm 0 (by omega); omega
    show (ebindR (get_memory iaddr) fun v =>
      ebind (set_register xi v) fun _ => restore_loop (xi + 1) (iaddr + 1) left) m = _
    rw [ebindR_ok (get_memory_ok hia m)]
    rw [ebind_ok (set_register_ok hxi (m.memory iaddr) m)]
    rw [ih (xi + 1) (iaddr + 1)
      { m with register_pool := fun j => if j = xi then m.memory iaddr else m.register_pool j }
      (fun k hk => by have := hr (k + 1) (by omega); omega)
      (fun k hk => by have := hm (k + 1) (by omega); omega)]
    congr 1
    · congr 1
      omega
    · congr 1
      funext j
      dsimp only
      by_cases h1 : xi + 1 ≤ j ∧ j < xi + 1 + left
      · rw [if_pos h1, if_pos (show xi ≤ j ∧ j < xi + (left + 1) from by omega)]
        congr 1
        omega
      · rw [if_neg h1]
        by_cases h2 : j = xi
        · rw [if_pos h2, if_pos (show xi ≤ j ∧ j < xi + (left + 1) from by omega)]
          subst h2
          congr 1
          omega
        · rw [if_neg h2, if_neg (show ¬ (xi ≤ j ∧ j < xi + (left + 1)) from by omega)]

/-- A successful restore-loop run implies every register index and every
read address was in bounds. -/
theorem restore_loop_ok_bounds : ∀ (left xi iaddr : Nat) (m m1 : Machine) (ret : Nat),
    restore_loop xi iaddr left m = (.ok ret, m1) →
    ∀ k, k < left → xi + k < REGISTER_COUNT ∧ iaddr + k < MEMORY_SIZE := by
  intro left
  induction left with
  | zero => intro xi iaddr m m1 ret h k hk; omega
  | succ left ih =>
    intro xi iaddr m m1 ret h k hk
    simp only [restore_loop] at h
    obtain ⟨v, hv, h⟩ := ebindR_cases h
    obtain ⟨hia, -⟩ := get_memory_cases hv
    obtain ⟨u, mA, hsr, h⟩ := ebind_cases h
    cases u
    obtain ⟨hxi, -⟩ := set_register_cases hsr
    by_cases hk0 : k = 0
    · subst hk0
      exact ⟨by omega, by omega⟩
    · have := ih _ _ _ _ _ h (k - 1) (by omega)
      exact ⟨by omega, by omega⟩

/-! ### Claim C4 — Store/Restore semantics on success -/

/-- Claim C4: whenever `Store(x)` succeeds it has copied registers
`0..=x` one byte each to ascending memory addresses starting at the index
register, and whenever `Restore(x)` succeeds it has filled registers
`0..=x` from ascending addresses starting at the index register; in both
cases the index register afterwards equals its old value plus `x + 1`. -/
theorem claim_C4_store_restore (m m1 m2 : Machine) (x : Nat)
    (h1 : exec (.Store x) m = (.ok (), m1))
    (h2 : exec (.Restore x) m = (.ok (), m2)) :
    (∀ j, j ≤ x → m1.memory (m.register_i + j) = m.register_pool j) ∧
    m1.register_i = m.register_i + x + 1 ∧
    (∀ j, j ≤ x → m2.register_pool j = m.memory (m.register_i + j)) ∧
    m2.register_i = m.register_i + x + 1 := by
  simp only [exec, get_register_i] at h1 h2
  obtain ⟨ret, mA, hloop, h1⟩ := ebind_cases h1
  have hbounds := store_loop_ok_bounds (x + 1) 0 m.register_i m mA ret hloop
  have hchar := store_loop_char (x + 1) 0 m.register_i m
    (fun k hk => (hbounds k hk).1) (fun k hk => (hbounds k hk).2)
  rw [hchar] at hloop
  have hret : m.register_i + (x + 1) = ret := by
    have := congrArg Prod.fst hloop
    injection this
  have hmA : mA = { m with memory := fun a =>
                      if m.register_i ≤ a ∧ a < m.register_i + (x + 1) then
                        m.register_pool (0 + (a - m.register_i))
                      else m.memory a } :=
    (congrArg Prod.snd hloop).symm
  subst hret
  obtain ⟨u, mB, hsetI, h1⟩ := ebind_cases h1
  cases u
  obtain ⟨hIlt, hmB⟩ := set_register_i_cases hsetI
  obtain ⟨hpcB, hm1⟩ := advance_cases h1
  have hIx : m.register_i + x < MEMORY_SIZE := by
    have := (hbounds x (by omega)).2
    omega
  have hmod : (m.register_i + (x + 1)) % 65536 = m.register_i + x + 1 := by
    have hms := MEMORY_SIZE_val
    omega
  obtain ⟨ret2, mC, hloop2, h2⟩ := ebind_cases h2
  have hbounds2 := restore_loop_ok_bounds (x + 1) 0 m.register_i m mC ret2 hloop2
  have hchar2 := restore_loop_char (x + 1) 0 m.register_i m
    (fun k hk => (hbounds2 k hk).1) (fun k hk => (hbounds2 k hk).2)
  rw [hchar2] at hloop2
  have hret2 : m.register_i + (x + 1) = ret2 := by
    have := congrArg Prod.fst hloop2
    injection this
  have hmC : mC = { m with register_pool := fun j =>
                      if 0 ≤ j ∧ j < 0 + (x + 1) then
                        m.memory (m.register_i + (j - 0))
                      else m.register_pool j } :=
    (congrArg Prod.snd hloop2).symm
  subst hret2
  obtain ⟨u2, mD, hsetI2, h2⟩ := ebind_cases h2
  cases u2
  obtain ⟨hIlt2, hmD⟩ := set_register_i_cases hsetI2
  obtain ⟨hpcD, hm2⟩ := advance_cases h2
  refine ⟨?_, ?_, ?_, ?_⟩
  · intro j hj
    have hmem : m1.memory = mA.memory := by rw [hm1, hmB]
    rw [hmem, hmA]
    show (if m.register_i ≤ m.register_i + j ∧ m.register_i + j < m.register_i + (x + 1)
      then m.register_pool (0 + (m.register_i + j - m.register_i))
      else m.memory (m.register_i + j)) = m.register_pool j
    rw [if_pos (by omega)]
    congr 1
    omega
  · have : m1.register_i = (m.register_i + (x + 1)) % 65536 := by rw [hm1, hmB]
    rw [this, hmod]
  · intro j hj
    have hpool : m2.register_pool = mC.register_pool := by rw [hm2, hmD]
    rw [hpool, hmC]
    show (if 0 ≤ j ∧ j < 0 + (x + 1)
      then m.memory (m.register_i + (j - 0)) else m.register_pool j) = m.memory (m.register_i + j)
    rw [if_pos (by omega), Nat.sub_zero]
  · have : m2.register_i = (m.register_i + (x + 1)) % 65536 := by rw [hm2, hmD]
    rw [this, hmod]

/-- Registers V0 = 11, V1 = 22 over memory 33, 44 at the bottom, for the
C4 witness. -/
def mStore : Machine :=
  { init_machine with
    register_pool := fun j => if j = 0 then 11 else if j = 1 then 22 else 0
    memory := fun a => if a = 0 then 33 else if a = 1 then 44 else 0 }

/-- Witness for C4: `Store(1)`/`Restore(1)` at I = 0 on `mStore`. -/
theorem claim_C4_witness :
    (exec (.Store 1) mStore).2.memory (mStore.register_i + 0) = mStore.register_pool 0 ∧
    (exec (.Store 1) mStore).2.register_i = mStore.register_i + 1 + 1 ∧
    (exec (.Restore 1) mStore).2.register_pool 0 = mStore.memory (mStore.register_i + 0) ∧
    (exec (.Restore 1) mStore).2.register_i = mStore.register_i + 1 + 1 := by
  obtain ⟨ha, hb, hc, hd⟩ :=
    claim_C4_store_restore mStore (exec (.Store 1) mStore).2 (exec (.Restore 1) mStore).2
      1 rfl rfl
  exact ⟨ha 0 (by decide), hb, hc 0 (by decide), hd⟩

/-! ### Claim C10 — Store is not atomic on its final overflow -/

/-- Claim C10: with `I + x + 1 = 4096` (and x a decodable register
index), `Store(x)` writes all `x + 1` register bytes to `I..I+x`
successfully and only then fails — the final index-register update to
4096 is rejected — so the step returns the index-register overflow error
while memory already holds the new bytes and the program counter and
index register are unchanged. -/
theorem claim_C10_store_partial (m mFin : Machine) (x : Nat) (r : Except Fault Unit)
    (hx : x < REGISTER_COUNT) (hI : m.register_i + x + 1 = MEMORY_SIZE)
    (hrun : exec (.Store x) m = (r, mFin)) :
    r = .error (.bail "reg i over flow") ∧
    (∀ j, j ≤ x → mFin.memory (m.register_i + j) = m.register_pool j) ∧
    mFin.pc = m.pc ∧
    mFin.register_i = m.register_i := by
  simp only [exec, get_register_i] at hrun
  have hchar := store_loop_char (x + 1) 0 m.register_i m
    (fun k hk => by omega)
    (fun k hk => by omega)
  rw [ebind_ok hchar] at hrun
  have hmod : (m.register_i + (x + 1)) % 65536 = MEMORY_SIZE := by
    have hms := MEMORY_SIZE_val
    omega
  have hfail := @set_register_i_err ((m.register_i + (x + 1)) % 65536)
    (by rw [hmod])
    { m with memory := fun a =>
               if m.register_i ≤ a ∧ a < m.register_i + (x + 1) then
                 m.register_pool (0 + (a - m.register_i))
               else m.memory a }
  rw [ebind_err hfail] at hrun
  injection hrun with hfst hsnd
  subst hfst
  subst hsnd
  refine ⟨rfl, ?_, rfl, rfl⟩
  intro j hj
  show (if m.register_i ≤ m.register_i + j ∧ m.register_i + j < m.register_i + (x + 1)
    then m.register_pool (0 + (m.register_i + j - m.register_i))
    else m.memory (m.register_i + j)) = m.register_pool j
  rw [if_pos (by omega)]
  congr 1
  omega

/-- I = 4095, V0 = 42: the smallest state exhibiting C10. -/
def mEdge : Machine :=
  { init_machine with
    register_i := 4095
    register_pool := fun j => if j = 0 then 42 else 0 }

/-- Witness for C10: `Store(0)` at I = 4095 writes V0 to address 4095,
then fails on the index-register update to 4096, leaving pc and I
unchanged. -/
theorem claim_C10_witness :
    (exec (.Store 0) mEdge).1 = .error (.bail "reg i over flow") ∧
    (exec (.Store 0) mEdge).2.memory (mEdge.register_i + 0) = mEdge.register_pool 0 ∧
    (exec (.Store 0) mEdge).2.pc = mEdge.pc ∧
    (exec (.Store 0) mEdge).2.register_i = mEdge.register_i := by
  obtain ⟨hr, hmem, hpc, hI⟩ :=
    claim_C10_store_partial mEdge (exec (.Store 0) mEdge).2 0 (exec (.Store 0) mEdge).1
      (by decide) (by decide) rfl
  exact ⟨hr, hmem 0 (by decide), hpc, hI⟩

/-! ### Draw frame lemmas (claim C7) -/

theorem ebindR_split {α β : Type} {rd : Machine → Except Fault α} {f : α → ES β}
    {m m1 : Machine} {r : Except Fault β}
    (h : ebindR rd f m = (r, m1)) :
    (∃ e, rd m = .error e ∧ r = .error e ∧ m1 = m) ∨
    (∃ a, rd m = .ok a ∧ f a m = (r, m1)) := by
  unfold ebindR at h
  rcases hr : rd m with e | a
  · rw [hr] at h
    exact Or.inl ⟨e, rfl, (congrArg Prod.fst h).symm, (congrArg Prod.snd h).symm⟩
  · rw [hr] at h
    exact Or.inr ⟨a, rfl, h⟩

theorem ebind_split {α β : Type} {a : ES α} {f : α → ES β} {m m2 : Machine} {r : Except Fault β}
    (h : ebind a f m = (r, m2)) :
    (∃ e m1, a m = (.error e, m1) ∧ r = .error e ∧ m2 = m1) ∨
    (∃ b m1, a m = (.ok b, m1) ∧ f b m1 = (r, m2)) := by
  unfold ebind at h
  rcases ha : a m with ⟨ra, mx⟩
  cases ra with
  | error e =>
    rw [ha] at h
    exact Or.inl ⟨e, mx, rfl, (congrArg Prod.fst h).symm, (congrArg Prod.snd h).symm⟩
  | ok b =>
    rw [ha] at h
    exact Or.inr ⟨b, mx, rfl, h⟩

/-- A Bool-guarded VF write never touches the display. -/
theorem vf_branch_display (b : Bool) (mm : Machine) :
    (if b then vf_set mm else mm).display_buffer = mm.display_buffer := by
  cases b <;> rfl

/-- A Bool-guarded VF write never touches pc or the index register. -/
theorem vf_branch_pc_i (b : Bool) (mm : Machine) :
    (if b then vf_set mm else mm).pc = mm.pc ∧
    (if b then vf_set mm else mm).register_i = mm.register_i := by
  cases b <;> exact ⟨rfl, rfl⟩

/-- The inner column loop only writes pixels of row `ye` with column in
`[x + xi, x + xi + left)`; every other pixel is untouched. -/
theorem draw_cols_frame (x ye srow row col : Nat) :
    ∀ (left xi : Nat) (m : Machine),
    (row ≠ ye ∨ col < x + xi ∨ x + xi + left ≤ col) →
    (draw_cols x ye srow xi left m).display_buffer row col = m.display_buffer row col := by
  intro left
  induction left with
  | zero => intro xi m h; rfl
  | succ left ih =>
    intro xi m h
    show (draw_cols x ye srow xi (left + 1) m).display_buffer row col = _
    simp only [draw_cols]
    by_cases hw : x + xi ≥ DISPLAY_WIDTH
    · rw [if_pos hw]
    · rw [if_neg hw]
      have hnext : row ≠ ye ∨ col < x + (xi + 1) ∨ x + (xi + 1) + left ≤ col := by
        rcases h with h | h | h
        · exact Or.inl h
        · exact Or.inr (Or.inl (by omega))
        · exact Or.inr (Or.inr (by omega))
      have hnotpix : ¬ (row = ye ∧ col = x + xi) := by
        rcases h with h | h | h
        · exact fun hc => h hc.1
        · exact fun hc => by omega
        · exact fun hc => by omega
      by_cases hf : m.display_buffer ye (x + xi) ≠
          xor (m.display_buffer ye (x + xi)) (decide (srow &&& SPRITE_MASK xi ≠ 0))
      · rw [if_pos hf]
        rw [ih (xi + 1) _ hnext, vf_branch_display]
        show (if row = ye ∧ col = x + xi then _ else m.display_buffer row col) = _
        rw [if_neg hnotpix]
      · rw [if_neg hf]
        exact ih (xi + 1) m hnext

/-- The inner column loop never touches pc or the index register. -/
theorem draw_cols_keeps (x ye srow : Nat) :
    ∀ (left xi : Nat) (m : Machine),
    (draw_cols x ye srow xi left m).pc = m.pc ∧
    (draw_cols x ye srow xi left m).register_i = m.register_i := by
  intro left
  induction left with
  | zero => intro xi m; exact ⟨rfl, rfl⟩
  | succ left ih =>
    intro xi m
    show ((draw_cols x ye srow xi (left + 1) m).pc = m.pc ∧ _)
    simp only [draw_cols]
    by_cases hw : x + xi ≥ DISPLAY_WIDTH
    · rw [if_pos hw]
      exact ⟨rfl, rfl⟩
    · rw [if_neg hw]
      by_cases hf : m.display_buffer ye (x + xi) ≠
          xor (m.display_buffer ye (x + xi)) (decide (srow &&& SPRITE_MASK xi ≠ 0))
      · rw [if_pos hf]
        obtain ⟨hp, hi⟩ := ih (xi + 1)
          (if m.display_buffer ye (x + xi) then
            vf_set { m with
              display_buffer := fun r c =>
                if r = ye ∧ c = x + xi then
                  xor (m.display_buffer ye (x + xi)) (decide (srow &&& SPRITE_MASK xi ≠ 0))
                else m.display_buffer r c
              display_buffer_dirty := true }
          else { m with
              display_buffer := fun r c =>
                if r = ye ∧ c = x + xi then
                  xor (m.display_buffer ye (x + xi)) (decide (srow &&& SPRITE_MASK xi ≠ 0))
                else m.display_buffer r c
              display_buffer_dirty := true })
        rw [hp, hi]
        obtain ⟨hp2, hi2⟩ := vf_branch_pc_i (m.display_buffer ye (x + xi))
          { m with
            display_buffer := fun r c =>
              if r = ye ∧ c = x + xi then
                xor (m.display_buffer ye (x + xi)) (decide (srow &&& SPRITE_MASK xi ≠ 0))
              else m.display_buffer r c
            display_buffer_dirty := true }
        rw [hp2, hi2]
        exact ⟨rfl, rfl⟩
      · rw [if_neg hf]
        exact ih (xi + 1) m

/-- The row loop only writes pixels with row in `[cy, cy + left)` and
column in `[x, x + 8)`, whether it succeeds or fails. -/
theorem draw_rows_frame (x row col : Nat) :
    ∀ (left cy ia : Nat) (m : Machine) (r : Except Fault Unit) (m1 : Machine),
    draw_rows x cy ia left m = (r, m1) →
    (row < cy ∨ cy + left ≤ row ∨ col < x ∨ x + 8 ≤ col) →
    m1.display_buffer row col = m.display_buffer row col := by
  intro left
  induction left with
  | zero =>
    intro cy ia m r m1 h hcond
    injection h with h1 h2
    rw [← h2]
  | succ left ih =>
    intro cy ia m r m1 h hcond
    rcases ebindR_split h with ⟨e, hg, hr, hm1⟩ | ⟨srow, hg, h⟩
    · rw [hm1]
    · by_cases hcy : cy ≥ DISPLAY_HEIGHT
      · rw [if_pos hcy] at h
        injection h with h1 h2
        rw [← h2]
      · rw [if_neg hcy] at h
        have hnext : row < cy + 1 ∨ cy + 1 + left ≤ row ∨ col < x ∨ x + 8 ≤ col := by
          rcases hcond with h1 | h1 | h1 | h1
          · exact Or.inl (by omega)
          · exact Or.inr (Or.inl (by omega))
          · exact Or.inr (Or.inr (Or.inl h1))
          · exact Or.inr (Or.inr (Or.inr h1))
        have hcols : row ≠ cy ∨ col < x + 0 ∨ x + 0 + 8 ≤ col := by
          rcases hcond with h1 | h1 | h1 | h1
          · exact Or.inl (by omega)
          · exact Or.inl (by omega)
          · exact Or.inr (Or.inl (by omega))
          · exact Or.inr (Or.inr (by omega))
        rw [ih (cy + 1) (ia + 1) _ r m1 h hnext]
        exact draw_cols_frame x cy srow row col 8 0 m hcols

/-- The row loop never touches pc or the index register. -/
theorem draw_rows_keeps (x : Nat) :
    ∀ (left cy ia : Nat) (m : Machine) (r : Except Fault Unit) (m1 : Machine),
    draw_rows x cy ia left m = (r, m1) →
    m1.pc = m.pc ∧ m1.register_i = m.register_i := by
  intro left
  induction left with
  | zero =>
    intro cy ia m r m1 h
    injection h with h1 h2
    rw [← h2]
    exact ⟨rfl, rfl⟩
  | succ left ih =>
    intro cy ia m r m1 h
    rcases ebindR_split h with ⟨e, hg, hr, hm1⟩ | ⟨srow, hg, h⟩
    · rw [hm1]
      exact ⟨rfl, rfl⟩
    · by_cases hcy : cy ≥ DISPLAY_HEIGHT
      · rw [if_pos hcy] at h
        injection h with h1 h2
        rw [← h2]
        exact ⟨rfl, rfl⟩
      · rw [if_neg hcy] at h
        obtain ⟨hp, hi⟩ := ih (cy + 1) (ia + 1) _ r m1 h
        obtain ⟨hp2, hi2⟩ := draw_cols_keeps x cy srow 8 0 m
        exact ⟨hp.trans hp2, hi.trans hi2⟩

/-- `Machine::draw` writes only inside the sprite box: anchor reduced
modulo 64/32, at most 8 columns, at most `height` rows, clipped at the
display edge — whether the draw succeeds or fails mid-way. -/
theorem draw_frame (a b hgt : Nat) (m m1 : Machine) (r : Except Fault Unit)
    (h : draw a b hgt m = (r, m1)) :
    ∀ row col,
      (col < a % DISPLAY_WIDTH ∨ a % DISPLAY_WIDTH + 7 < col ∨
       row < b % DISPLAY_HEIGHT ∨ b % DISPLAY_HEIGHT + hgt ≤ row) →
      m1.display_buffer row col = m.display_buffer row col := by
  intro row col hcond
  unfold draw at h
  have hmap : row < b % DISPLAY_HEIGHT ∨ b % DISPLAY_HEIGHT + hgt ≤ row ∨
      col < a % DISPLAY_WIDTH ∨ a % DISPLAY_WIDTH + 8 ≤ col := by
    rcases hcond with h1 | h1 | h1 | h1
    · exact Or.inr (Or.inr (Or.inl h1))
    · exact Or.inr (Or.inr (Or.inr (by omega)))
    · exact Or.inl h1
    · exact Or.inr (Or.inl h1)
  exact draw_rows_frame (a % DISPLAY_WIDTH) row col hgt (b % DISPLAY_HEIGHT)
    (get_register_i m) (vf_clr m) r m1 h hmap

/-- `advance` never touches the display. -/
theorem advance_display (m : Machine) (r : Except Fault Unit) (m1 : Machine)
    (h : advance m = (r, m1)) : m1.display_buffer = m.display_buffer := by
  unfold advance advance_pc at h
  by_cases hp : m.pc + 1 * 2 ≥ MEMORY_SIZE
  · rw [if_pos hp] at h
    injection h with h1 h2
    rw [← h2]
  · rw [if_neg hp] at h
    injection h with h1 h2
    rw [← h2]

/-! ### Claim C7 — Draw reduces the anchor and clips, never wraps -/

/-- Claim C7: for every `DrawC(x, y, height)` step — successful or not —
the anchor is first reduced modulo 64 (columns) and 32 (rows) and the
step changes no pixel outside the box `[x0, x0 + 7] × [y0, y0 + height)`
of the reduced anchor `(x0, y0)`: rows and columns past the display edge
are clipped, never wrapped, so a sprite whose last column lands at x = 63
draws nothing at x = 0 or anywhere else beyond the edge. -/
theorem claim_C7_draw_clipping (m m1 : Machine) (rx ry hgt : Nat) (r : Except Fault Unit)
    (h : exec (.DrawC rx ry hgt) m = (r, m1)) :
    ∀ row col,
      (col < m.register_pool rx % DISPLAY_WIDTH ∨
       m.register_pool rx % DISPLAY_WIDTH + 7 < col ∨
       row < m.register_pool ry % DISPLAY_HEIGHT ∨
       m.register_pool ry % DISPLAY_HEIGHT + hgt ≤ row) →
      m1.display_buffer row col = m.display_buffer row col := by
  intro row col hcond
  simp only [exec] at h
  rcases ebindR_split h with ⟨e, hg, hr, hm1⟩ | ⟨xv, hgx, h⟩
  · rw [hm1]
  · obtain ⟨-, hxv⟩ := get_register_cases hgx
    subst hxv
    rcases ebindR_split h with ⟨e, hg, hr, hm1⟩ | ⟨yv, hgy, h⟩
    · rw [hm1]
    · obtain ⟨-, hyv⟩ := get_register_cases hgy
      subst hyv
      rcases ebind_split h with ⟨e, mD, hdraw, hr, hm1⟩ | ⟨u, mD, hdraw, h⟩
      · rw [hm1]
        exact draw_frame _ _ _ m mD (.error e) hdraw row col hcond
      · have hD := draw_frame _ _ _ m mD (.ok u) hdraw row col hcond
        have hadv := advance_display mD r m1 h
        rw [congrFun (congrFun hadv row) col, hD]

/-- V0 = 60, sprite row 0xFF at I = 0: anchored so its last drawn column
is 63. -/
def mSprite : Machine :=
  { init_machine with
    register_pool := fun j => if j = 0 then 60 else 0
    memory := fun a => if a = 0 then 0xFF else 0 }

/-- Witness for C7: drawing an 8-wide sprite anchored at x = 60 changes
nothing at column 0 (no wrap-around) and nothing at column 59. -/
theorem claim_C7_witness :
    (exec (.DrawC 0 1 1) mSprite).2.display_buffer 0 0 = mSprite.display_buffer 0 0 ∧
    (exec (.DrawC 0 1 1) mSprite).2.display_buffer 0 59 = mSprite.display_buffer 0 59 := by
  have h := claim_C7_draw_clipping mSprite (exec (.DrawC 0 1 1) mSprite).2 0 1 1
    (exec (.DrawC 0 1 1) mSprite).1 rfl
  exact ⟨h 0 0 (Or.inl (by decide)), h 0 59 (Or.inl (by decide))⟩

/-! ### Claim C9 — pc and I stay below 4096 across every successful step

Every mutation of the program counter goes through `advance_pc`/`set_pc`
and every mutation of the index register goes through `set_register_i`,
all of which reject any value ≥ 4096 before mutating. -/

def Inv (m : Machine) : Prop :=
  m.pc < MEMORY_SIZE ∧ m.register_i < MEMORY_SIZE

def PreservesInv {α : Type} (a : ES α) : Prop :=
  ∀ m v m1, a m = (.ok v, m1) → Inv m → Inv m1

theorem pres_ebind {α β : Type} {a : ES α} {f : α → ES β}
    (ha : PreservesInv a) (hf : ∀ v, PreservesInv (f v)) : PreservesInv (ebind a f) := by
  intro m v m1 h hi
  rcases ebind_split h with ⟨e, mx, hax, hre, hm⟩ | ⟨b, mx, hax, hfx⟩
  · exact Except.noConfusion hre
  · exact hf b mx v m1 hfx (ha m b mx hax hi)

theorem pres_ebindR {α β : Type} {rd : Machine → Except Fault α} {f : α → ES β}
    (hf : ∀ v, PreservesInv (f v)) : PreservesInv (ebindR rd f) := by
  intro m v m1 h hi
  rcases ebindR_split h with ⟨e, hrd, hre, hm⟩ | ⟨b, hrd, hfx⟩
  · exact Except.noConfusion hre
  · exact hf b m v m1 hfx hi

theorem pres_ite {α : Type} {c : Prop} [Decidable c] {a b : ES α}
    (ha : PreservesInv a) (hb : PreservesInv b) : PreservesInv (if c then a else b) := by
  by_cases hc : c
  · rw [if_pos hc]; exact ha
  · rw [if_neg hc]; exact hb

theorem pres_fail {α : Type} (e : Fault) : PreservesInv (fun m => ((.error e, m) : Except Fault α × Machine)) := by
  intro m v m1 h hi
  exact (err_ne_ok h).elim

theorem pres_advance_pc (d : Nat) : PreservesInv (advance_pc d) := by
  intro m v m1 h hi
  obtain ⟨hb, hm1⟩ := advance_pc_cases h
  rw [hm1]
  exact ⟨hb, hi.2⟩

theorem pres_advance : PreservesInv advance := pres_advance_pc 1

theorem pres_set_pc (p : Nat) : PreservesInv (set_pc p) := by
  intro m v m1 h hi
  obtain ⟨hb, hm1⟩ := set_pc_cases h
  rw [hm1]
  exact ⟨hb, hi.2⟩

theorem pres_set_register (i v : Nat) : PreservesInv (set_register i v) := by
  intro m u m1 h hi
  obtain ⟨-, hm1⟩ := set_register_cases h
  rw [hm1]
  exact ⟨hi.1, hi.2⟩

theorem pres_set_register_i (v : Nat) : PreservesInv (set_register_i v) := by
  intro m u m1 h hi
  obtain ⟨hb, hm1⟩ := set_register_i_cases h
  rw [hm1]
  exact ⟨hi.1, hb⟩

theorem pres_set_memory (a v : Nat) : PreservesInv (set_memory a v) := by
  intro m u m1 h hi
  obtain ⟨-, hm1⟩ := set_memory_cases h
  rw [hm1]
  exact ⟨hi.1, hi.2⟩

theorem pres_emodify {g : Machine → Machine}
    (hg : ∀ m, (g m).pc = m.pc ∧ (g m).register_i = m.register_i) :
    PreservesInv (emodify g) := by
  intro m v m1 h hi
  unfold emodify at h
  rw [← ok_snd h]
  exact ⟨by rw [(hg m).1]; exact hi.1, by rw [(hg m).2]; exact hi.2⟩

theorem pres_set_vf : PreservesInv set_vf := pres_emodify (fun m => ⟨rfl, rfl⟩)

theorem pres_clr_vf : PreservesInv clr_vf := pres_emodify (fun m => ⟨rfl, rfl⟩)

theorem pres_store_loop (xi ia left : Nat) : PreservesInv (store_loop xi ia left) := by
  intro m v m1 h hi
  have hb := store_loop_ok_bounds left xi ia m m1 v h
  have hc := store_loop_char left xi ia m (fun k hk => (hb k hk).1) (fun k hk => (hb k hk).2)
  rw [hc] at h
  rw [← ok_snd h]
  exact ⟨hi.1, hi.2⟩

theorem pres_restore_loop (xi ia left : Nat) : PreservesInv (restore_loop xi ia left) := by
  intro m v m1 h hi
  have hb := restore_loop_ok_bounds left xi ia m m1 v h
  have hc := restore_loop_char left xi ia m (fun k hk => (hb k hk).1) (fun k hk => (hb k hk).2)
  rw [hc] at h
  rw [← ok_snd h]
  exact ⟨hi.1, hi.2⟩

theorem pres_draw (x y hgt : Nat) : PreservesInv (draw x y hgt) := by
  intro m v m1 h hi
  unfold draw at h
  obtain ⟨hp, hri⟩ := draw_rows_keeps (x % DISPLAY_WIDTH) hgt (y % DISPLAY_HEIGHT)
    (get_register_i m) (vf_clr m) (.ok v) m1 h
  exact ⟨by rw [hp]; exact hi.1, by rw [hri]; exact hi.2⟩

/-- Every operation the execution engine can run preserves the pc and
index-register bounds on success. -/
theorem exec_preserves_inv : ∀ op : Operation, PreservesInv (exec op) := by
  intro op
  cases op with
  | CallSysC a => exact pres_advance
  | Clear =>
    exact pres_ebind (pres_emodify (g := clear_display) (fun m => ⟨rfl, rfl⟩))
      (fun _ => pres_advance)
  | Return =>
    intro m v m1 h hi
    simp only [exec] at h
    rcases hs : m.stack with - | ⟨ret, rest⟩ <;> rw [hs] at h
    · exact (err_ne_ok h).elim
    · obtain ⟨hb, hm1⟩ := set_pc_cases h
      rw [hm1]
      exact ⟨hb, hi.2⟩
  | JumpC c => exact pres_set_pc c
  | CallC c =>
    refine pres_ebind pres_advance (fun _ => ?_)
    intro m v m1 h hi
    obtain ⟨hb, hm1⟩ := set_pc_cases h
    rw [hm1]
    exact ⟨hb, hi.2⟩
  | SkipEqC x c => exact pres_ebindR (fun xv => pres_ite (pres_advance_pc 2) pres_advance)
  | SkipNeC x c => exact pres_ebindR (fun xv => pres_ite (pres_advance_pc 2) pres_advance)
  | SkipEq x y =>
    exact pres_ebindR (fun xv => pres_ebindR (fun yv => pres_ite (pres_advance_pc 2) pres_advance))
  | SetC x c => exact pres_ebind (pres_set_register x c) (fun _ => pres_advance)
  | AddC x c =>
    exact pres_ebindR (fun xv =>
      pres_ebind (pres_set_register x (wrapping_add8 xv c)) (fun _ => pres_advance))
  | Set x y =>
    exact pres_ebindR (fun yv => pres_ebind (pres_set_register x yv) (fun _ => pres_advance))
  | Or x y =>
    exact pres_ebindR (fun xv => pres_ebindR (fun yv =>
      pres_ebind (pres_set_register x (xv ||| yv)) (fun _ =>
        pres_ebind pres_clr_vf (fun _ => pres_advance))))
  | And x y =>
    exact pres_ebindR (fun xv => pres_ebindR (fun yv =>
      pres_ebind (pres_set_register x (xv &&& yv)) (fun _ =>
        pres_ebind pres_clr_vf (fun _ => pres_advance))))
  | Xor x y =>
    exact pres_ebindR (fun xv => pres_ebindR (fun yv =>
      pres_ebind (pres_set_register x (xv ^^^ yv)) (fun _ =>
        pres_ebind pres_clr_vf (fun _ => pres_advance))))
  | Add x y =>
    exact pres_ebindR (fun xv => pres_ebindR (fun yv =>
      pres_ebind (pres_set_register x (wrapping_add8 xv yv)) (fun _ =>
        pres_ebind (pres_ite pres_set_vf pres_clr_vf) (fun _ => pres_advance))))
  | Sub x y =>
    exact pres_ebindR (fun xv => pres_ebindR (fun yv =>
      pres_ebind (pres_set_register x (wrapping_sub8 xv yv)) (fun _ =>
        pres_ebind (pres_ite pres_clr_vf pres_set_vf) (fun _ => pres_advance))))
  | Shr x y =>
    exact pres_ebindR (fun yv =>
      pres_ebind (pres_set_register x (yv / 2)) (fun _ =>
        pres_ebind (pres_ite pres_set_vf pres_clr_vf) (fun _ => pres_advance)))
  | SubRev x y =>
    exact pres_ebindR (fun xv => pres_ebindR (fun yv =>
      pres_ebind (pres_set_register x (wrapping_sub8 yv xv)) (fun _ =>
        pres_ebind (pres_ite pres_clr_vf pres_set_vf) (fun _ => pres_advance))))
  | Shl x y =>
    exact pres_ebindR (fun yv =>
      pres_ebind (pres_set_register x (yv * 2 % 256)) (fun _ =>
        pres_ebind (pres_ite pres_set_vf pres_clr_vf) (fun _ => pres_advance)))
  | SkipNe x y =>
    exact pres_ebindR (fun xv => pres_ebindR (fun yv => pres_ite (pres_advance_pc 2) pres_advance))
  | SetIC c => exact pres_ebind (pres_set_register_i c) (fun _ => pres_advance)
  | JumpV0C c =>
    show PreservesInv (ebindR (get_register 0) fun entry =>
      if entry + c ≥ 65536 then
        (fun m => ((.error (.bail "jumpV0C address overflow"), m) : Except Fault Unit × Machine))
      else set_pc (entry + c))
    refine pres_ebindR (fun entry => ?_)
    intro m v m1 h hi
    by_cases hb : entry + c ≥ 65536
    · rw [if_pos hb] at h
      exact (err_ne_ok h).elim
    · rw [if_neg hb] at h
      exact pres_set_pc (entry + c) m v m1 h hi
  | RandC x c =>
    intro m v m1 h hi
    exact pres_ebind (pres_set_register x (m.rng_stream m.rng_cnt % 256 &&& c))
      (fun _ => pres_advance) { m with rng_cnt := m.rng_cnt + 1 } v m1 h ⟨hi.1, hi.2⟩
  | DrawC x y c =>
    exact pres_ebindR (fun xv => pres_ebindR (fun yv =>
      pres_ebind (pres_draw xv yv c) (fun _ => pres_advance)))
  | SkipEqKey x =>
    refine pres_ebindR (fun key => ?_)
    intro m v m1 h hi
    dsimp only at h
    by_cases hk : key ≥ 16
    · rw [if_pos hk] at h
      exact (err_ne_ok h).elim
    · rw [if_neg hk] at h
      exact pres_ite (c := m.key_state key = true) (pres_advance_pc 2) pres_advance m v m1 h hi
  | SkipNeKey x =>
    refine pres_ebindR (fun key => ?_)
    intro m v m1 h hi
    dsimp only at h
    by_cases hk : key ≥ 16
    · rw [if_pos hk] at h
      exact (err_ne_ok h).elim
    · rw [if_neg hk] at h
      exact pres_ite (c := ¬ m.key_state key = true) (pres_advance_pc 2) pres_advance m v m1 h hi
  | GetDelayTimer x =>
    intro m v m1 h hi
    exact pres_ebind (pres_set_register x m.delay_timer) (fun _ => pres_advance) m v m1 h hi
  | GetKey x =>
    intro m v m1 h hi
    simp only [exec] at h
    rcases hs : m.get_key_state with - | - | k | key <;> rw [hs] at h
    · rw [← ok_snd h]
      exact ⟨hi.1, hi.2⟩
    · rw [← ok_snd h]
      exact hi
    · rw [← ok_snd h]
      exact hi
    · exact pres_ebind (pres_set_register x key) (fun _ => pres_advance)
        { m with get_key_state := .None } v m1 h ⟨hi.1, hi.2⟩
  | SetDelayTimer x =>
    exact pres_ebindR (fun xv =>
      pres_ebind (pres_emodify (fun m => ⟨rfl, rfl⟩)) (fun _ => pres_advance))
  | SetSoundTimer x =>
    exact pres_ebindR (fun xv =>
      pres_ebind (pres_emodify (fun m => ⟨rfl, rfl⟩)) (fun _ => pres_advance))
  | AddI x =>
    refine pres_ebindR (fun xv => ?_)
    intro m v m1 h hi
    exact pres_ebind (pres_set_register_i (get_register_i m + xv))
      (fun _ => pres_advance) m v m1 h hi
  | SetIFont x =>
    refine pres_ebindR (fun xv => ?_)
    intro m v m1 h hi
    exact pres_ebind (pres_set_register_i ((m.font_address + xv * m.font_address) % 65536))
      (fun _ => pres_advance) m v m1 h hi
  | Bcd x =>
    refine pres_ebindR (fun xv => ?_)
    intro m v m1 h hi
    exact pres_ebind (pres_set_memory m.register_i (xv / 100 % 10)) (fun _ =>
      pres_ebind (pres_set_memory (m.register_i + 1) (xv / 10 % 10)) (fun _ =>
        pres_ebind (pres_set_memory (m.register_i + 2) (xv % 10)) (fun _ =>
          pres_advance))) m v m1 h hi
  | Store x =>
    intro m v m1 h hi
    exact pres_ebind (pres_store_loop 0 (get_register_i m) (x + 1)) (fun ia =>
      pres_ebind (pres_set_register_i (ia % 65536)) (fun _ => pres_advance)) m v m1 h hi
  | Restore x =>
    intro m v m1 h hi
    exact pres_ebind (pres_restore_loop 0 (get_register_i m) (x + 1)) (fun ia =>
      pres_ebind (pres_set_register_i (ia % 65536)) (fun _ => pres_advance)) m v m1 h hi
  | Unknown c => exact pres_advance

/-- Claim C9: from any state with `pc < 4096` and `I < 4096`, every
operation that executes successfully — and hence every successful
`step()` — leaves `pc < 4096` and `I < 4096` again: all pc mutations go
through the checked `advance_pc`/`set_pc` and all index-register
mutations through the checked `set_register_i`. -/
theorem claim_C9_bounds_preserved (m m1 : Machine) (op : Operation)
    (hpc : m.pc < MEMORY_SIZE) (hri : m.register_i < MEMORY_SIZE) :
    (exec op m = (.ok (), m1) → m1.pc < MEMORY_SIZE ∧ m1.register_i < MEMORY_SIZE) ∧
    (step m = (.ok (), m1) → m1.pc < MEMORY_SIZE ∧ m1.register_i < MEMORY_SIZE) := by
  constructor
  · intro h
    exact exec_preserves_inv op m () m1 h ⟨hpc, hri⟩
  · intro h
    unfold step at h
    rcases hg : get_opcode m.pc m with e | opc <;> rw [hg] at h
    · exact (err_ne_ok h).elim
    · exact exec_preserves_inv (parse_opcode opc) m () m1 h ⟨hpc, hri⟩

/-- Witness for C9: a `Clear` step and a fetched-and-decoded `step()`
from the zero machine both keep the bounds. -/
theorem claim_C9_witness :
    ((exec .Clear init_machine).2.pc < MEMORY_SIZE ∧
     (exec .Clear init_machine).2.register_i < MEMORY_SIZE) ∧
    ((step init_machine).2.pc < MEMORY_SIZE ∧
     (step init_machine).2.register_i < MEMORY_SIZE) := by
  refine ⟨?_, ?_⟩
  · exact (claim_C9_bounds_preserved init_machine (exec .Clear init_machine).2 .Clear
      (by decide) (by decide)).1 rfl
  · exact (claim_C9_bounds_preserved init_machine (step init_machine).2 .Clear
      (by decide) (by decide)).2 rfl

end BChip8
